import Mathlib

/-!
Verification development for the LinkedIn post preprocessing pipeline
(`preprocess.py`).  The pipeline loads a batch of posts from JSON, enriches
each post that has a `text` field with metadata obtained from a completion
service (with a deterministic fallback record when the call or the JSON
parse fails), collects all tags, issues one tag-unification call (falling
back to the identity mapping on failure), rewrites each post's tags through
the resulting mapping, and saves the batch.

The embedding is shallow: JSON values are modelled by `JValue`, Python
dicts by insertion-ordered association lists, the completion service by an
oracle `Nat → LLMOutcome` giving the outcome of the n-th extraction
`chain.invoke` + JSON-parse (both `except` clauses of the source catch
every error raised there and behave identically, so one `failure`
constructor suffices), and uncaught Python exceptions by `Except PyError`.
The unification chain needs no oracle: its prompt template contains the
literal JSON example `{"OldTag1": "UnifiedTag", ...}`, whose unescaped
braces make `"OldTag1"` a replacement-field name of the f-string
template, so `chain.invoke({"tags": ...})` raises `KeyError` while
formatting the prompt — inside the `try`, before the `llm` step — and the
unifier always returns its identity fallback without contacting the
service.  `process_posts` also returns the number of completion-service
calls issued (one per extraction attempt that reaches `chain.invoke`).
-/

set_option autoImplicit false

namespace PostPrep

/-- JSON values as produced by `json.load` / the JSON output parser.
An `obj` models a Python dict (string keys, insertion order). -/
inductive JValue where
  | null : JValue
  | bool (b : Bool) : JValue
  | num (n : Int) : JValue
  | str (s : String) : JValue
  | arr (xs : List JValue) : JValue
  | obj (fields : List (String × JValue)) : JValue

mutual

/-- Boolean equality on JSON values (structural). -/
def JValue.beq : JValue → JValue → Bool
  | .null, .null => true
  | .bool a, .bool b => a == b
  | .num a, .num b => a == b
  | .str a, .str b => a == b
  | .arr xs, .arr ys => JValue.beqArr xs ys
  | .obj fs, .obj gs => JValue.beqObj fs gs
  | _, _ => false

/-- Boolean equality on JSON arrays. -/
def JValue.beqArr : List JValue → List JValue → Bool
  | [], [] => true
  | x :: xs, y :: ys => JValue.beq x y && JValue.beqArr xs ys
  | _, _ => false

/-- Boolean equality on JSON object field lists. -/
def JValue.beqObj : List (String × JValue) → List (String × JValue) → Bool
  | [], [] => true
  | (k, v) :: fs, (k', v') :: gs => k == k' && JValue.beq v v' && JValue.beqObj fs gs
  | _, _ => false

end

mutual

theorem JValue.eq_of_beq : ∀ {a b : JValue}, JValue.beq a b = true → a = b
  | .null, .null, _ => rfl
  | .bool _, .bool _, h => by simpa [JValue.beq] using h
  | .num _, .num _, h => by simpa [JValue.beq] using h
  | .str _, .str _, h => by simpa [JValue.beq] using h
  | .arr xs, .arr ys, h => by
    rw [@JValue.eq_of_beqArr xs ys (by simpa [JValue.beq] using h)]
  | .obj fs, .obj gs, h => by
    rw [@JValue.eq_of_beqObj fs gs (by simpa [JValue.beq] using h)]

theorem JValue.eq_of_beqArr : ∀ {xs ys : List JValue}, JValue.beqArr xs ys = true → xs = ys
  | [], [], _ => rfl
  | x :: xs, y :: ys, h => by
    have h' := h
    simp only [JValue.beqArr, Bool.and_eq_true] at h'
    rw [JValue.eq_of_beq h'.1, JValue.eq_of_beqArr h'.2]

theorem JValue.eq_of_beqObj :
    ∀ {fs gs : List (String × JValue)}, JValue.beqObj fs gs = true → fs = gs
  | [], [], _ => rfl
  | (k, v) :: fs, (k', v') :: gs, h => by
    have h' := h
    simp only [JValue.beqObj, Bool.and_eq_true, beq_iff_eq] at h'
    rw [h'.1.1, JValue.eq_of_beq h'.1.2, JValue.eq_of_beqObj h'.2]

end

mutual

theorem JValue.beq_refl : ∀ (a : JValue), JValue.beq a a = true
  | .null => rfl
  | .bool _ => by simp [JValue.beq]
  | .num _ => by simp [JValue.beq]
  | .str _ => by simp [JValue.beq]
  | .arr xs => by simpa [JValue.beq] using JValue.beqArr_refl xs
  | .obj fs => by simpa [JValue.beq] using JValue.beqObj_refl fs

theorem JValue.beqArr_refl : ∀ (xs : List JValue), JValue.beqArr xs xs = true
  | [] => rfl
  | x :: xs => by
    simp only [JValue.beqArr, Bool.and_eq_true]
    exact ⟨JValue.beq_refl x, JValue.beqArr_refl xs⟩

theorem JValue.beqObj_refl : ∀ (fs : List (String × JValue)), JValue.beqObj fs fs = true
  | [] => rfl
  | (k, v) :: fs => by
    simp only [JValue.beqObj, Bool.and_eq_true, beq_iff_eq]
    exact ⟨⟨trivial, JValue.beq_refl v⟩, JValue.beqObj_refl fs⟩

end

instance : DecidableEq JValue := fun a b =>
  decidable_of_iff (JValue.beq a b = true)
    ⟨JValue.eq_of_beq, fun h => h ▸ JValue.beq_refl a⟩

/-- A Python dict with string keys: an insertion-ordered association list. -/
abbrev Dict := List (String × JValue)

namespace Dict

/-- Python `d[k]` lookup (first matching key; keys are unique in dicts built by
`json.load` or by the `Dict.set` below). -/
def find? : Dict → String → Option JValue
  | [], _ => none
  | (k', v) :: rest, k => if k' = k then some v else find? rest k

/-- Python `k in d`. -/
def hasKey (d : Dict) (k : String) : Bool := (d.find? k).isSome

/-- Python `d.get(k, v₀)`. -/
def getD (d : Dict) (k : String) (v₀ : JValue) : JValue := (d.find? k).getD v₀

/-- Python `d[k] = v`: replace the value in place when the key exists,
append a new entry otherwise. -/
def set : Dict → String → JValue → Dict
  | [], k, v => [(k, v)]
  | (k', v') :: rest, k, v =>
    if k' = k then (k', v) :: rest else (k', v') :: set rest k v

/-- Python `{**d, **u}`: start from `d` and write every entry of `u` over it. -/
def merge (d : Dict) (u : List (String × JValue)) : Dict :=
  u.foldl (fun acc kv => acc.set kv.1 kv.2) d

end Dict

/-- Whether a value is hashable in Python (usable as a set element or dict
key): lists and dicts are not. -/
def JValue.hashable : JValue → Bool
  | .arr _ => false
  | .obj _ => false
  | _ => true

/-- Python iteration over a value: a string yields its characters as
one-character strings, a list its elements, a dict its keys; other values
are not iterable (`TypeError`). -/
def pyIter : JValue → Option (List JValue)
  | .str s => some (s.data.map fun c => .str (String.mk [c]))
  | .arr xs => some xs
  | .obj fs => some (fs.map fun kv => .str kv.1)
  | _ => none

/-- An uncaught Python exception (the precise class is irrelevant to the
pipeline's behaviour: any uncaught exception aborts the run). -/
inductive PyError where
  | typeError : PyError
  | attrError : PyError
  | other : PyError
  deriving DecidableEq

/-- Outcome of one `chain.invoke` followed by `json_parser.parse`: either a
parsed JSON value, or a failure (the invoke raised, or the parse raised —
`OutputParserException` and the catch-all `except Exception` produce the
same fallback, so they are not distinguished). -/
inductive LLMOutcome where
  | ok (v : JValue) : LLMOutcome
  | failure : LLMOutcome
  deriving DecidableEq

/-- Python `post.count('\n')` for a single-character needle. -/
def countNewlines (s : String) : Nat := s.data.count '\n'

/-- The truncation at the top of `extract_metadata`:
`if len(post) > MAX_LENGTH: post = post[:MAX_LENGTH] + "..."` with
`MAX_LENGTH = 2000`. -/
def truncatePost (post : String) : String :=
  if post.length > 2000 then String.mk (post.data.take 2000) ++ "..." else post

/-- The fallback record built in both `except` branches of
`extract_metadata`; `post` here is the (possibly truncated) local variable. -/
def fallbackRecord (post : String) : JValue :=
  .obj [("line_count", .num (countNewlines post + 1)),
        ("language", .str "Unknown"),
        ("tags", .arr [])]

/-- The function `extract_metadata(post)`: truncate, issue the completion call, return
the parsed value on success and the fallback record on any caught error.
Note the fallback counts newlines in the truncated local `post`. -/
def extract_metadata (post : String) (outcome : LLMOutcome) : JValue :=
  let post := truncatePost post
  match outcome with
  | .ok v => v
  | .failure => fallbackRecord post

/-- Add one element to the running Python set of tags (membership test; a
Lean list standing for the set, deduplicated, in first-seen order — the
order is irrelevant because the set is only ever sorted or used as the
key set of the identity dict). -/
def addTag (acc : List JValue) (t : JValue) : List JValue :=
  if t ∈ acc then acc else acc ++ [t]

/-- Python `unique_tags.update(tagsVal)`: iterate the value (TypeError if
not iterable) and insert each element into the set (TypeError if an
element is unhashable). -/
def updateTags (acc : List JValue) (tagsVal : JValue) : Except PyError (List JValue) :=
  match pyIter tagsVal with
  | none => .error .typeError
  | some elems =>
    elems.foldlM (fun a t => if t.hashable then .ok (addTag a t) else .error .typeError) acc

/-- The tag-collection loop of `get_unified_tags`:
`for post in posts_with_metadata: unique_tags.update(post.get('tags', []))`. -/
def collectTags (posts : List Dict) : Except PyError (List JValue) :=
  posts.foldlM (fun acc p => updateTags acc (p.getD "tags" (.arr []))) []

/-- Ordered insertion of a string into a sorted list. -/
def insortStr (s : String) : List String → List String
  | [] => [s]
  | t :: rest => if s ≤ t then s :: t :: rest else t :: insortStr s rest

/-- Ascending sort of a list of strings (Python `sorted`). -/
def sortStrings (l : List String) : List String := l.foldr insortStr []

/-- Python `', '.join(sorted(unique_tags))`: `sorted` (followed by `join`) raises
`TypeError` unless every collected tag is a string. -/
def sortJoin (ts : List JValue) : Except PyError String :=
  if ts.all (fun t => match t with | .str _ => true | _ => false) then
    .ok (String.intercalate ", "
      (sortStrings (ts.filterMap fun t => match t with | .str s => some s | _ => none)))
  else .error .typeError

/-- The value bound to `unified_tags` in the orchestrator: either the JSON
value parsed from a unification response (any shape — not validated), or
the Python dict `{tag: tag for tag in unique_tags}` built by the fallback.
In the current source the `parsed` shape is dead code — the unification
prompt never formats (see `get_unified_tags`) — but `tagLookup` below
models the rewrite's `.get` for both shapes of `unified_tags`. -/
inductive TagMap where
  | parsed (v : JValue) : TagMap
  | identity (tags : List JValue) : TagMap
  deriving DecidableEq

/-- The function `get_unified_tags(posts_with_metadata)`: collect the
distinct tags (exceptions here are raised before the `try` and escape) and
build the sorted prompt list.  The unification template contains, besides
the `{tags}` placeholder, the literal JSON example
`{"OldTag1": "UnifiedTag", "OldTag2": "UnifiedTag", ...}`; its unescaped
braces make `"OldTag1"` a replacement-field name of the f-string template,
so `chain.invoke({"tags": unique_tags_list})` raises `KeyError` while
formatting the prompt, before the `llm` step of the chain runs.  The
`except Exception` arm catches it and returns the identity dict
`{tag: tag for tag in unique_tags}`: no completion-service call is ever
issued and no service outcome is consulted. -/
def get_unified_tags (posts : List Dict) : Except PyError TagMap := do
  let uniqueTags ← collectTags posts
  let _ ← sortJoin uniqueTags
  pure (.identity uniqueTags)

/-- Python `unified_tags.get(tag, tag)`.  When `unified_tags` is a parsed
JSON value that is not a dict, the `.get` attribute lookup raises; a dict
lookup hashes the tag first (JSON dict keys are strings, so only string
tags can match an entry). -/
def tagLookup (m : TagMap) (t : JValue) : Except PyError JValue :=
  match m with
  | .parsed (.obj fs) =>
    if t.hashable then
      .ok (match t with
           | .str s => (Dict.find? fs s).getD t
           | _ => t)
    else .error .typeError
  | .parsed _ => .error .attrError
  | .identity _ => if t.hashable then .ok t else .error .typeError

/-- One iteration of the final loop of `process_posts`:
`current_tags = post.get('tags', [])` followed by
`post['tags'] = [unified_tags.get(tag, tag) for tag in current_tags]`. -/
def rewritePost (m : TagMap) (post : Dict) : Except PyError Dict :=
  match pyIter (post.getD "tags" (.arr [])) with
  | none => .error .typeError
  | some elems => do
    let newTags ← elems.mapM (tagLookup m)
    pure (post.set "tags" (.arr newTags))

/-- Python `post['text']` when it exists and is a string (the only case in which
`fix_text` returns instead of raising). -/
def getTextStr (post : Dict) : Option String :=
  match post.find? "text" with
  | some (.str t) => some t
  | _ => none

/-- The per-post body of the main loop of `process_posts` (for a post that
has a `text` key): repair the text with `fix_text` (raises on a non-string
value), call `extract_metadata` on the repaired text, and merge
`{**post, **metadata}` (raises `TypeError` when the metadata value is not
a dict).  `fix` is the external `ftfy.fix_text`, an opaque pure
string-to-string repair. -/
def enrichOne (fix : String → String) (outcome : LLMOutcome) (post : Dict) :
    Except PyError Dict :=
  match getTextStr post with
  | none => .error .typeError
  | some t =>
    let post := post.set "text" (.str (fix t))
    match extract_metadata (fix t) outcome with
    | .obj fs => .ok (post.merge fs)
    | _ => .error .typeError

/-- The main loop of `process_posts` over the already-loaded batch: skip
posts without a `text` key, enrich the rest in order.  `n` is the number of
completion-service calls issued so far; the returned number counts the
calls issued up to normal completion or up to the uncaught exception
(`fix_text` raising on a non-string text issues no call; a merge failure
happens after the call for that post was issued). -/
def processLoop (fix : String → String) (svc : Nat → LLMOutcome) :
    List Dict → Nat → Except PyError (List Dict) × Nat
  | [], n => (.ok [], n)
  | post :: rest, n =>
    if post.hasKey "text" then
      match enrichOne fix (svc n) post with
      | .error e => (.error e, if (getTextStr post).isSome then n + 1 else n)
      | .ok enriched =>
        let (r, n') := processLoop fix svc rest (n + 1)
        (r.map (enriched :: ·), n')
    else processLoop fix svc rest n

/-- The function `process_posts` after the input batch has been loaded: the
enrichment loop, the single `get_unified_tags` call, and the tag-rewrite
loop.  The result is the final in-memory batch (the one passed to
`json.dump`), or the uncaught exception that aborted the run, together
with the number of completion-service calls issued.  Only extraction
attempts issue service calls: the unification `chain.invoke` raises
`KeyError` at prompt formatting before the service is reached (see
`get_unified_tags`), so the unification stage adds nothing to the count. -/
def process_posts (fix : String → String) (svc : Nat → LLMOutcome) (posts : List Dict) :
    Except PyError (List Dict) × Nat :=
  match processLoop fix svc posts 0 with
  | (.error e, n) => (.error e, n)
  | (.ok enriched, n) =>
    match get_unified_tags enriched with
    | .error e => (.error e, n)
    | .ok m =>
      match enriched.mapM (rewritePost m) with
      | .error e => (.error e, n)
      | .ok final => (.ok final, n)

/-- Outcome of `open(raw_file_path, encoding="utf-8")` + `json.load(file)`:
the parsed batch, or one of the two caught exception classes, or any other
exception (e.g. `FileNotFoundError` raised by `open`). -/
inductive LoadOutcome where
  | ok (posts : List Dict) : LoadOutcome
  | unicodeDecodeError : LoadOutcome
  | jsonDecodeError : LoadOutcome
  | otherError : LoadOutcome
  deriving DecidableEq

/-- The input-loading `try`/`except` at the top of `process_posts`:
`UnicodeDecodeError` and `json.JSONDecodeError` are caught, reported and
turn into an early `return` (`none`: no batch, no output file); any other
exception is not caught and propagates to the caller. -/
def loadPosts (o : LoadOutcome) : Except PyError (Option (List Dict)) :=
  match o with
  | .ok posts => .ok (some posts)
  | .unicodeDecodeError => .ok none
  | .jsonDecodeError => .ok none
  | .otherError => .error .other

/-- The total tag-rewrite function described by the spec: a tag that has an
entry in the unification mapping is replaced by its entry, and a tag the
mapping omits (or any tag, under the identity fallback) maps to itself. -/
def tagMapSpec : TagMap → JValue → JValue
  | .parsed (.obj fs), .str s => (Dict.find? fs s).getD (.str s)
  | .parsed _, t => t
  | .identity _, t => t

/-- A post text of 2001 characters — 2000 `'a'`s then one newline — whose
newline lies beyond the 2000-character truncation limit. -/
def ceText : String := String.mk (List.replicate 2000 'a' ++ ['\n'])

deriving instance DecidableEq for Except

/-! ## Helper lemmas about dict operations and the pipeline loop -/

theorem Dict.find?_set_self (d : Dict) (k : String) (v : JValue) :
    (d.set k v).find? k = some v := by
  induction d with
  | nil => simp [Dict.set, Dict.find?]
  | cons kv rest ih =>
    obtain ⟨k', v'⟩ := kv
    by_cases h : k' = k
    · simp [Dict.set, h, Dict.find?]
    · simp [Dict.set, h, Dict.find?, ih]

theorem Dict.find?_set_ne (d : Dict) (k k' : String) (v : JValue) (h : k' ≠ k) :
    (d.set k v).find? k' = d.find? k' := by
  have hne : ¬ k = k' := fun hh => h hh.symm
  induction d with
  | nil => simp [Dict.set, Dict.find?, hne]
  | cons kv rest ih =>
    obtain ⟨k'', v''⟩ := kv
    by_cases hk : k'' = k
    · subst hk
      simp [Dict.set, Dict.find?, hne]
    · simp [Dict.set, hk, Dict.find?, ih]

theorem Dict.find?_merge_notmem (u : List (String × JValue)) (d : Dict) (k : String)
    (h : ∀ kv ∈ u, kv.1 ≠ k) : (d.merge u).find? k = d.find? k := by
  induction u generalizing d with
  | nil => rfl
  | cons kv rest ih =>
    have hstep : Dict.merge d (kv :: rest) = Dict.merge (d.set kv.1 kv.2) rest := rfl
    rw [hstep, ih _ (fun x hx => h x (List.mem_cons_of_mem _ hx)),
      Dict.find?_set_ne _ _ _ _ (Ne.symm (h kv (List.mem_cons_self _ _)))]

theorem Dict.hasKey_of_getTextStr {post : Dict} {t : String}
    (h : getTextStr post = some t) : post.hasKey "text" = true := by
  unfold getTextStr at h
  unfold Dict.hasKey
  cases hf : post.find? "text" with
  | none => rw [hf] at h; exact absurd h (by simp)
  | some v => simp [hf]

theorem getTextStr_eq_str {post : Dict} {t : String}
    (h : getTextStr post = some t) : post.find? "text" = some (.str t) := by
  unfold getTextStr at h
  cases hf : post.find? "text" with
  | none => rw [hf] at h; exact absurd h (by simp)
  | some v =>
    rw [hf] at h
    cases v <;> simp_all

theorem mapM_except_ok_length {α β ε : Type} (f : α → Except ε β) :
    ∀ (l : List α) (out : List β), l.mapM f = .ok out → out.length = l.length := by
  intro l
  induction l with
  | nil =>
    intro out h
    have h' : (Except.ok ([] : List β) : Except ε (List β)) = .ok out := h
    rw [← Except.ok.inj h']
    rfl
  | cons a rest ih =>
    intro out h
    rw [List.mapM_cons] at h
    cases hfa : f a with
    | error e => rw [hfa] at h; exact absurd h (by simp [bind, Except.bind])
    | ok b =>
      rw [hfa] at h
      cases hrest : rest.mapM f with
      | error e => rw [hrest] at h; exact absurd h (by simp [bind, Except.bind])
      | ok bs =>
        rw [hrest] at h
        simp [bind, Except.bind, pure, Except.pure] at h
        simp [← h, List.length_cons, ih bs hrest]

theorem mapM_except_congr {α β ε : Type} (f : α → Except ε β) (g : α → β) :
    ∀ (l : List α), (∀ x ∈ l, f x = .ok (g x)) → l.mapM f = .ok (l.map g) := by
  intro l
  induction l with
  | nil => intro _; rfl
  | cons a rest ih =>
    intro h
    rw [List.mapM_cons, h a (List.mem_cons_self _ _),
      ih (fun x hx => h x (List.mem_cons_of_mem _ hx))]
    rfl

theorem tagLookup_parsed_obj (fs : List (String × JValue)) (t : JValue)
    (h : t.hashable = true) :
    tagLookup (.parsed (.obj fs)) t = .ok (tagMapSpec (.parsed (.obj fs)) t) := by
  cases t <;> simp_all [tagLookup, tagMapSpec, JValue.hashable]

theorem tagLookup_identity (u : List JValue) (t : JValue) (h : t.hashable = true) :
    tagLookup (.identity u) t = .ok t := by
  simp [tagLookup, h]

theorem tagMapSpec_identity (u : List JValue) (t : JValue) :
    tagMapSpec (.identity u) t = t := by
  cases t <;> rfl

theorem rewritePost_eq (m : TagMap) (post : Dict) (elems : List JValue)
    (hiter : pyIter (post.getD "tags" (.arr [])) = some elems)
    (hlk : ∀ t ∈ elems, tagLookup m t = .ok (tagMapSpec m t)) :
    rewritePost m post = .ok (post.set "tags" (.arr (elems.map (tagMapSpec m)))) := by
  unfold rewritePost
  simp only [hiter]
  rw [mapM_except_congr _ _ _ hlk]
  rfl

theorem extract_metadata_failure (t : String) :
    extract_metadata t .failure = fallbackRecord (truncatePost t) := rfl

theorem extract_metadata_ok (t : String) (v : JValue) :
    extract_metadata t (.ok v) = v := rfl

theorem enrichOne_eq_merge (fix : String → String) (outcome : LLMOutcome) (post : Dict)
    (t : String) (fs : List (String × JValue))
    (htext : getTextStr post = some t)
    (hmeta : extract_metadata (fix t) outcome = .obj fs) :
    enrichOne fix outcome post = .ok ((post.set "text" (.str (fix t))).merge fs) := by
  unfold enrichOne
  simp only [htext, hmeta]

theorem enrichOne_failure_eq (fix : String → String) (post : Dict) (t : String)
    (htext : getTextStr post = some t) :
    enrichOne fix .failure post =
      .ok ((((post.set "text" (.str (fix t))).set "line_count"
              (.num (countNewlines (truncatePost (fix t)) + 1))).set "language"
              (.str "Unknown")).set "tags" (.arr [])) := by
  rw [enrichOne_eq_merge fix .failure post t
    [("line_count", .num (countNewlines (truncatePost (fix t)) + 1)),
     ("language", .str "Unknown"), ("tags", .arr [])] htext rfl]
  rfl

theorem processLoop_ok_length (fix : String → String) (svc : Nat → LLMOutcome) :
    ∀ (posts : List Dict) (n n' : Nat) (out : List Dict),
      processLoop fix svc posts n = (.ok out, n') →
      out.length = (posts.filter fun p => p.hasKey "text").length := by
  intro posts
  induction posts with
  | nil =>
    intro n n' out h
    simp only [processLoop, Prod.mk.injEq, Except.ok.injEq] at h
    rw [← h.1]
    rfl
  | cons p rest ih =>
    intro n n' out h
    by_cases hp : p.hasKey "text"
    · simp only [processLoop, hp, if_true] at h
      cases he : enrichOne fix (svc n) p with
      | error e => rw [he] at h; exact absurd h (by simp)
      | ok enr =>
        rw [he] at h
        cases hrec : processLoop fix svc rest (n + 1) with
        | mk r n2 =>
          rw [hrec] at h
          cases r with
          | error e => exact absurd h (by simp [Except.map])
          | ok others =>
            simp only [Except.map, Prod.mk.injEq, Except.ok.injEq] at h
            rw [← h.1, List.filter_cons_of_pos (by simpa using hp)]
            simp [ih _ _ _ hrec]
    · simp only [processLoop, hp, if_false] at h
      rw [List.filter_cons_of_neg (by simpa using hp)]
      exact ih _ _ _ h

theorem processLoop_append_skip (fix : String → String) (svc : Nat → LLMOutcome)
    (p : Dict) (hp : p.hasKey "text" = false) :
    ∀ (l1 l2 : List Dict) (n : Nat),
      processLoop fix svc (l1 ++ p :: l2) n = processLoop fix svc (l1 ++ l2) n := by
  intro l1
  induction l1 with
  | nil =>
    intro l2 n
    simp [processLoop, hp]
  | cons q l1 ih =>
    intro l2 n
    simp only [List.cons_append, processLoop]
    by_cases hq : q.hasKey "text"
    · rw [if_pos hq, if_pos hq]
      cases he : enrichOne fix (svc n) q with
      | error e => rfl
      | ok enr =>
        have hrec := ih l2 (n + 1)
        simp only [List.append_eq] at hrec ⊢
        rw [hrec]
    · rw [if_neg hq, if_neg hq]
      exact ih l2 n

theorem process_posts_ok_parts (fix : String → String) (svc : Nat → LLMOutcome)
    (posts final : List Dict) (n : Nat)
    (h : process_posts fix svc posts = (.ok final, n)) :
    ∃ enriched m, processLoop fix svc posts 0 = (.ok enriched, n) ∧
      get_unified_tags enriched = .ok m ∧
      enriched.mapM (rewritePost m) = .ok final := by
  unfold process_posts at h
  split at h
  · simp at h
  · split at h
    · simp at h
    · split at h
      · simp at h
      · simp only [Prod.mk.injEq, Except.ok.injEq] at h
        rename_i eList nloop heqL xU mTag heqU xM fin heqM
        exact ⟨eList, mTag, h.2 ▸ heqL, heqU, by rw [heqM, h.1]⟩

theorem ceText_count : countNewlines ceText = 1 := by
  have h : ceText.data = List.replicate 2000 'a' ++ ['\n'] := rfl
  rw [countNewlines, h, List.count_append, List.count_replicate]
  decide

theorem ceText_len : ceText.length = 2001 := by
  have h : ceText.length = (List.replicate 2000 'a' ++ ['\n']).length := rfl
  rw [h, List.length_append, List.length_replicate]
  decide

theorem ceText_trunc : truncatePost ceText = String.mk (List.replicate 2000 'a') ++ "..." := by
  rw [truncatePost, if_pos (by rw [ceText_len]; omega)]
  have h : ceText.data = List.replicate 2000 'a' ++ ['\n'] := rfl
  rw [h, List.take_left' (List.length_replicate 2000 'a')]

theorem ceText_trunc_count : countNewlines (truncatePost ceText) = 0 := by
  rw [ceText_trunc, countNewlines]
  have h : (String.mk (List.replicate 2000 'a') ++ "...").data
      = List.replicate 2000 'a' ++ "...".data := rfl
  rw [h, List.count_append, List.count_replicate]
  decide

/-! ## Claims -/

/-- Claim C1 (confirmed): for the empty input batch and every service
behaviour, `process_posts` produces the output batch `[]` and issues zero
completion-service calls: the enrichment loop runs no extraction call, and
although `get_unified_tags` is still invoked unconditionally, its
`chain.invoke` raises `KeyError` while formatting the prompt — before the
completion service is reached — so the unifier falls back to the identity
mapping without a service call. -/
theorem C1_empty_batch (fix : String → String) (svc : Nat → LLMOutcome) :
    process_posts fix svc [] = (.ok [], 0) := rfl

/-- Claim C2, counterexample: for the 2001-character text `ceText` (2000
`'a'`s followed by one newline) the extraction fallback reports
`line_count = 1` — the newline count of the truncated local text plus one
— while the number of newline characters in the original, untruncated text
plus one is 2. -/
theorem C2_counterexample :
    extract_metadata ceText .failure =
      .obj [("line_count", .num 1), ("language", .str "Unknown"), ("tags", .arr [])]
    ∧ countNewlines ceText = 1
    ∧ Int.ofNat (countNewlines ceText) + 1 ≠ 1 := by
  refine ⟨?_, ceText_count, ?_⟩
  · rw [extract_metadata_failure, fallbackRecord, ceText_trunc_count]
    norm_num
  · rw [ceText_count]
    decide

/-- Claim C2 (amended): when extraction fails, the fallback `line_count`
equals the number of newline characters in the truncated prompt text plus
one (the first 2000 characters, with the `"..."` marker appended, when the
text exceeds 2000 characters; the full text otherwise); for texts of at
most 2000 characters this coincides with the count over the original
text claimed by the spec. -/
theorem C2_amended (t : String) :
    extract_metadata t .failure =
      .obj [("line_count", .num (countNewlines (truncatePost t) + 1)),
            ("language", .str "Unknown"), ("tags", .arr [])]
    ∧ (t.length ≤ 2000 → countNewlines (truncatePost t) = countNewlines t) := by
  constructor
  · rfl
  · intro hle
    rw [truncatePost, if_neg (by omega)]

/-- Concrete instantiation of `C2_amended` at the short text `"a\nb"`. -/
theorem C2_amended_witness :
    ("a\nb" : String).length ≤ 2000 ∧
      countNewlines (truncatePost "a\nb") = countNewlines "a\nb" :=
  ⟨by decide, (C2_amended "a\nb").2 (by decide)⟩

/-- Claim C3, counterexample: nothing validates the keys of a successfully
parsed extraction object, so a service response `{"text": "evil"}` is
written over the original `text` field by the merge `{**post, **metadata}`:
with the identity encoding repair, the input post `{"text": "hi"}` comes
out of the pipeline with `text = "evil"`. -/
theorem C3_counterexample :
    process_posts (fun s => s)
        (fun n => if n = 0 then .ok (.obj [("text", .str "evil")]) else .failure)
        [[("text", .str "hi")]] =
      (.ok [[("text", .str "evil"), ("tags", .arr [])]], 1)
    ∧ JValue.str "evil" ≠ .str "hi" :=
  ⟨by decide, by decide⟩

/-- Claim C3 (amended): provided every successful extraction outcome is a
JSON object whose keys all lie in {line_count, language, tags}, each
record present in the output preserves every original field other than
`text`, `line_count`, `language` and `tags` unchanged, and its `text`
field is exactly the encoding-repaired original text. -/
theorem C3_amended (fix : String → String) (outcome : LLMOutcome) (m : TagMap)
    (post enr r : Dict) (t : String) (k : String)
    (htext : getTextStr post = some t)
    (hwf : ∀ v, outcome = .ok v → ∃ fs, v = .obj fs ∧
      ∀ kv ∈ fs, kv.1 = "line_count" ∨ kv.1 = "language" ∨ kv.1 = "tags")
    (henr : enrichOne fix outcome post = .ok enr)
    (hrw : rewritePost m enr = .ok r)
    (hk1 : k ≠ "text") (hk2 : k ≠ "line_count") (hk3 : k ≠ "language") (hk4 : k ≠ "tags") :
    r.find? k = post.find? k ∧ r.find? "text" = some (.str (fix t)) := by
  obtain ⟨fs, hfs, hkeys⟩ :
      ∃ fs, enr = (post.set "text" (.str (fix t))).merge fs ∧
        ∀ kv ∈ fs, kv.1 = "line_count" ∨ kv.1 = "language" ∨ kv.1 = "tags" := by
    cases outcome with
    | failure =>
      refine ⟨[("line_count", .num (countNewlines (truncatePost (fix t)) + 1)),
        ("language", .str "Unknown"), ("tags", .arr [])], ?_, ?_⟩
      · have h := enrichOne_eq_merge fix .failure post t
          [("line_count", .num (countNewlines (truncatePost (fix t)) + 1)),
           ("language", .str "Unknown"), ("tags", .arr [])] htext rfl
        rw [h] at henr
        exact (Except.ok.inj henr).symm
      · intro kv hkv
        simp only [List.mem_cons, List.mem_singleton] at hkv
        rcases hkv with h | h | h
        · exact Or.inl (by rw [h])
        · exact Or.inr (Or.inl (by rw [h]))
        · rcases h with h | h
          · exact Or.inr (Or.inr (by rw [h]))
          · exact absurd h (List.not_mem_nil kv)
    | ok v =>
      obtain ⟨fs, hv, hks⟩ := hwf v rfl
      refine ⟨fs, ?_, hks⟩
      have h := enrichOne_eq_merge fix (.ok v) post t fs htext
        (by rw [extract_metadata_ok, hv])
      rw [h] at henr
      exact (Except.ok.inj henr).symm
  obtain ⟨nt, hnt⟩ : ∃ nt, r = enr.set "tags" (.arr nt) := by
    unfold rewritePost at hrw
    cases hi : pyIter (enr.getD "tags" (.arr [])) with
    | none => rw [hi] at hrw; exact absurd hrw (by simp)
    | some elems =>
      rw [hi] at hrw
      have hrw' : (do
          let newTags ← elems.mapM (tagLookup m)
          pure (enr.set "tags" (.arr newTags)) : Except PyError Dict) = .ok r := hrw
      cases hmm : elems.mapM (tagLookup m) with
      | error e =>
        rw [hmm] at hrw'
        exact absurd (show (Except.error e : Except PyError Dict) = .ok r from hrw')
          (by simp)
      | ok nt =>
        rw [hmm] at hrw'
        exact ⟨nt, (Except.ok.inj
          (show (Except.ok (enr.set "tags" (.arr nt)) : Except PyError Dict) = .ok r
            from hrw')).symm⟩
  have hfsne : ∀ kv ∈ fs, kv.1 ≠ k := by
    intro kv hkv
    rcases hkeys kv hkv with h | h | h
    · rw [h]; exact fun he => hk2 he.symm
    · rw [h]; exact fun he => hk3 he.symm
    · rw [h]; exact fun he => hk4 he.symm
  have hfsnetext : ∀ kv ∈ fs, kv.1 ≠ "text" := by
    intro kv hkv
    rcases hkeys kv hkv with h | h | h <;> rw [h] <;> decide
  constructor
  · rw [hnt, Dict.find?_set_ne _ _ _ _ hk4, hfs,
      Dict.find?_merge_notmem fs _ k hfsne,
      Dict.find?_set_ne _ _ _ _ hk1]
  · rw [hnt, Dict.find?_set_ne _ _ _ _ (show "text" ≠ "tags" by decide), hfs,
      Dict.find?_merge_notmem fs _ "text" hfsnetext,
      Dict.find?_set_self]

/-- Concrete instantiation of `C3_amended`: a post with an extra `id`
field, failing extraction and the identity tag map. -/
theorem C3_amended_witness :
    Dict.find? [("id", .num 7), ("text", .str "hi"), ("line_count", .num 1),
        ("language", .str "Unknown"), ("tags", .arr [])] "id"
      = Dict.find? [("id", .num 7), ("text", .str "hi")] "id"
    ∧ Dict.find? [("id", .num 7), ("text", .str "hi"), ("line_count", .num 1),
        ("language", .str "Unknown"), ("tags", .arr [])] "text"
      = some (.str "hi") :=
  C3_amended (fun s => s) .failure (.identity [])
    [("id", .num 7), ("text", .str "hi")]
    [("id", .num 7), ("text", .str "hi"), ("line_count", .num 1),
      ("language", .str "Unknown"), ("tags", .arr [])]
    [("id", .num 7), ("text", .str "hi"), ("line_count", .num 1),
      ("language", .str "Unknown"), ("tags", .arr [])]
    "hi" "id" (by decide) (fun v h => by cases h) (by decide) (by decide)
    (by decide) (by decide) (by decide) (by decide)

/-- Claim C4, counterexample: extraction fails for the first post (call 0
is a failure), but the second post's call parses to a JSON array, so the
merge raises an uncaught TypeError and the whole run aborts — no output
record is produced for the failing post. -/
theorem C4_counterexample :
    process_posts (fun s => s) (fun n => if n = 1 then .ok (.arr []) else .failure)
        [[("text", .str "x")], [("text", .str "y")]] =
      (.error .typeError, 2)
    ∧ (fun n => if n = 1 then LLMOutcome.ok (.arr []) else .failure) 0 = .failure :=
  ⟨by decide, by decide⟩

/-- Claim C4 (amended): when extraction fails for a post,
`extract_metadata` returns the fallback record and the post's enrichment
succeeds, producing a record with `language = "Unknown"`, `tags = []` and
the fallback `line_count`; the tag rewrite keeps those fields; and
whenever the run completes, the output contains exactly one record per
input post that has a `text` field.  (Without the completion proviso the
claim fails: see the counterexample, where another post's non-object
metadata aborts the run.) -/
theorem C4_amended :
    (∀ (fix : String → String) (post : Dict) (t : String),
        getTextStr post = some t →
        ∃ enr, enrichOne fix .failure post = .ok enr ∧
          enr.find? "language" = some (.str "Unknown") ∧
          enr.find? "tags" = some (.arr []) ∧
          enr.find? "line_count" = some (.num (countNewlines (truncatePost (fix t)) + 1)))
    ∧ (∀ (m : TagMap) (d : Dict),
        d.find? "tags" = some (.arr []) →
        rewritePost m d = .ok (d.set "tags" (.arr [])) ∧
        (d.set "tags" (.arr [])).find? "tags" = some (.arr []) ∧
        ∀ k, k ≠ "tags" → (d.set "tags" (.arr [])).find? k = d.find? k)
    ∧ (∀ (fix : String → String) (svc : Nat → LLMOutcome) (posts final : List Dict)
        (n : Nat),
        process_posts fix svc posts = (.ok final, n) →
        final.length = (posts.filter fun p => p.hasKey "text").length) := by
  refine ⟨?_, ?_, ?_⟩
  · intro fix post t htext
    refine ⟨_, enrichOne_failure_eq fix post t htext, ?_, ?_, ?_⟩
    · rw [Dict.find?_set_ne _ _ _ _ (show "language" ≠ "tags" by decide),
        Dict.find?_set_self]
    · rw [Dict.find?_set_self]
    · rw [Dict.find?_set_ne _ _ _ _ (show "line_count" ≠ "tags" by decide),
        Dict.find?_set_ne _ _ _ _ (show "line_count" ≠ "language" by decide),
        Dict.find?_set_self]
  · intro m d htags
    have hiter : pyIter (d.getD "tags" (.arr [])) = some [] := by
      unfold Dict.getD
      rw [htags]
      rfl
    refine ⟨?_, by rw [Dict.find?_set_self], fun k hk => Dict.find?_set_ne _ _ _ _ hk⟩
    have h := rewritePost_eq m d [] hiter (by intro t ht; exact absurd ht (by simp))
    simpa using h
  · intro fix svc posts final n h
    obtain ⟨enriched, m, hl, hu, hm⟩ := process_posts_ok_parts fix svc posts final n h
    rw [mapM_except_ok_length _ _ _ hm]
    exact processLoop_ok_length fix svc posts 0 n enriched hl

/-- Concrete instantiation of `C4_amended`: the fallback enrichment of a
two-line post and the output-size equation for a completed run. -/
theorem C4_amended_witness :
    (∃ enr, enrichOne (fun s => s) .failure [("text", .str "a\nb")] = .ok enr ∧
      enr.find? "language" = some (.str "Unknown") ∧
      enr.find? "tags" = some (.arr []) ∧
      enr.find? "line_count" = some (.num (countNewlines (truncatePost "a\nb") + 1))) :=
  C4_amended.1 (fun s => s) [("text", .str "a\nb")] "a\nb" (by decide)

/-- Claim C5, counterexample: the first post's extraction parses to
`{"tags": "ab"}` (a string-valued tags field); the unification call fails
(its `chain.invoke` raises at prompt formatting), so the identity fallback
is used — yet the final tags value `["a", "b"]` (the string's characters,
produced by iterating the string in the rewrite comprehension) differs
from the pre-unification tags value `"ab"` recorded by the enrichment
loop. -/
theorem C5_counterexample :
    processLoop (fun s => s)
        (fun n => if n = 0 then .ok (.obj [("tags", .str "ab")]) else .failure)
        [[("text", .str "x")]] 0 =
      (.ok [[("text", .str "x"), ("tags", .str "ab")]], 1)
    ∧ get_unified_tags [[("text", .str "x"), ("tags", .str "ab")]] =
        .ok (.identity [.str "a", .str "b"])
    ∧ process_posts (fun s => s)
        (fun n => if n = 0 then .ok (.obj [("tags", .str "ab")]) else .failure)
        [[("text", .str "x")]] =
      (.ok [[("text", .str "x"), ("tags", .arr [.str "a", .str "b"])]], 1)
    ∧ JValue.str "ab" ≠ .arr [.str "a", .str "b"] :=
  ⟨by decide, by decide, by decide, by decide⟩

/-- Claim C5 (amended): when tag unification fails — as it always does in
the current source, its `chain.invoke` raising `KeyError` at prompt
formatting — `get_unified_tags` returns the identity mapping over the
collected tag set, and every post whose pre-unification tags value is a
list (of hashable elements) keeps exactly that tags value through the
rewrite; a non-list iterable tags value is instead replaced by the list of
its elements (see the counterexample). -/
theorem C5_amended (enriched : List Dict) (utags : List JValue) (m : TagMap)
    (hc : collectTags enriched = .ok utags)
    (hm : get_unified_tags enriched = .ok m) :
    m = .identity utags ∧
    ∀ post ∈ enriched, ∀ ts : List JValue,
      post.getD "tags" (.arr []) = .arr ts →
      (∀ t ∈ ts, t.hashable = true) →
      rewritePost m post = .ok (post.set "tags" (.arr ts)) ∧
      (post.set "tags" (.arr ts)).getD "tags" (.arr []) = post.getD "tags" (.arr []) := by
  have hmid : m = .identity utags := by
    unfold get_unified_tags at hm
    rw [hc] at hm
    have hm' : (do
        let _ ← sortJoin utags
        pure (TagMap.identity utags) : Except PyError TagMap) = .ok m := hm
    cases hsj : sortJoin utags with
    | error e =>
      rw [hsj] at hm'
      exact absurd (show (Except.error e : Except PyError TagMap) = .ok m from hm')
        (by simp)
    | ok s =>
      rw [hsj] at hm'
      exact (Except.ok.inj
        (show (Except.ok (TagMap.identity utags) : Except PyError TagMap) = .ok m
          from hm')).symm
  subst hmid
  refine ⟨rfl, ?_⟩
  intro post hmem ts hts hhash
  have hiter : pyIter (post.getD "tags" (.arr [])) = some ts := by rw [hts]; rfl
  have h := rewritePost_eq (.identity utags) post ts hiter
    (fun t ht => by rw [tagLookup_identity utags t (hhash t ht), tagMapSpec_identity])
  have hfun : tagMapSpec (.identity utags) = fun t => t :=
    funext (tagMapSpec_identity utags)
  rw [hfun] at h
  refine ⟨by rw [h, List.map_id'], ?_⟩
  have hset : (post.set "tags" (.arr ts)).getD "tags" (.arr []) = .arr ts := by
    unfold Dict.getD
    rw [Dict.find?_set_self]
    rfl
  rw [hset]
  exact hts.symm

/-- Concrete instantiation of `C5_amended`: one post with the single tag
`"A"` and a failed unification call. -/
theorem C5_amended_witness :
    collectTags [[("tags", .arr [.str "A"])]] = .ok [.str "A"]
    ∧ rewritePost (.identity [.str "A"]) [("tags", .arr [.str "A"])] =
        .ok [("tags", .arr [.str "A"])] :=
  ⟨by decide,
   ((C5_amended [[("tags", .arr [.str "A"])]] [.str "A"] (.identity [.str "A"])
      (by decide) (by decide)).2 [("tags", .arr [.str "A"])] (by decide)
      [.str "A"] (by decide) (by decide)).1⟩

/-- Claim C6 (confirmed): a post without a `text` field is skipped without
aborting the run: the whole pipeline result on any batch containing such a
post — at any position — equals the result on the batch with that post
removed, so every other post's enriched record (and the call count) is
unaffected. -/
theorem C6_skipped_post_no_effect (fix : String → String) (svc : Nat → LLMOutcome)
    (l1 l2 : List Dict) (p : Dict) (hp : p.hasKey "text" = false) :
    process_posts fix svc (l1 ++ p :: l2) = process_posts fix svc (l1 ++ l2) := by
  unfold process_posts
  rw [processLoop_append_skip fix svc p hp l1 l2 0]

/-- Concrete instantiation of `C6_skipped_post_no_effect`: a text-less
post in front of a batch of one valid post. -/
theorem C6_skipped_post_no_effect_witness :
    Dict.hasKey [("id", .num 1)] "text" = false
    ∧ process_posts (fun s => s) (fun _ => .failure)
        ([("id", .num 1)] :: [[("text", .str "x")]]) =
      process_posts (fun s => s) (fun _ => .failure) [[("text", .str "x")]] :=
  ⟨by decide,
   C6_skipped_post_no_effect (fun s => s) (fun _ => .failure) [] [[("text", .str "x")]]
     [("id", .num 1)] (by decide)⟩

/-- Claim C7 (confirmed): every error raised during a completion call or
during response parsing is caught where it is issued (`LLMOutcome.failure`
covers both `except` arms of the source, which behave identically):
`extract_metadata` returns for every outcome — the parsed value on
success, the fallback record on failure — and the `try` of
`get_unified_tags` likewise returns the unifier's fallback (its
`chain.invoke` always raises `KeyError` at prompt formatting, caught by
`except Exception`) whenever the pre-`try` tag collection and sorting
(which are not service-call or parse errors) succeed. -/
theorem C7_no_exception_escapes :
    (∀ (t : String) (o : LLMOutcome),
        extract_metadata t o =
          match o with
          | .ok v => v
          | .failure => fallbackRecord (truncatePost t))
    ∧ (∀ (posts : List Dict) (utags : List JValue) (s : String),
        collectTags posts = .ok utags → sortJoin utags = .ok s →
        get_unified_tags posts = .ok (.identity utags)) := by
  constructor
  · intro t o
    cases o <;> rfl
  · intro posts utags s hc hsj
    unfold get_unified_tags
    rw [hc]
    have h : (do
        let _ ← sortJoin utags
        pure (TagMap.identity utags) : Except PyError TagMap) = .ok (.identity utags) := by
      rw [hsj]
      rfl
    exact h

/-- Concrete instantiation of `C7_no_exception_escapes` on the empty
batch, for both extraction outcomes and for the unifier. -/
theorem C7_no_exception_escapes_witness :
    collectTags [] = .ok [] ∧ sortJoin [] = .ok ""
    ∧ get_unified_tags [] = .ok (.identity [])
    ∧ extract_metadata "x" .failure = fallbackRecord (truncatePost "x") :=
  ⟨by decide, by decide,
   C7_no_exception_escapes.2 [] [] "" (by decide) (by decide),
   C7_no_exception_escapes.1 "x" .failure⟩

/-- Claim C8 (confirmed): the tag rewrite is total over the tags of every
post it processes: with a parsed JSON-object mapping, every (hashable) tag
is replaced by its entry in the mapping when one exists and by itself when
the mapping omits it (`tagMapSpec`); with the identity fallback every tag
maps to itself.  (Unhashable tags cannot reach the rewrite: collecting
them into the tag set already aborts the run.) -/
theorem C8_rewrite_total (post : Dict) (elems : List JValue)
    (hiter : pyIter (post.getD "tags" (.arr [])) = some elems)
    (hhash : ∀ t ∈ elems, t.hashable = true) :
    (∀ fs : List (String × JValue),
        rewritePost (.parsed (.obj fs)) post =
          .ok (post.set "tags" (.arr (elems.map (tagMapSpec (.parsed (.obj fs)))))))
    ∧ (∀ u : List JValue,
        rewritePost (.identity u) post = .ok (post.set "tags" (.arr elems))) := by
  constructor
  · intro fs
    exact rewritePost_eq _ post elems hiter
      (fun t ht => tagLookup_parsed_obj fs t (hhash t ht))
  · intro u
    have h := rewritePost_eq (.identity u) post elems hiter
      (fun t ht => by rw [tagLookup_identity u t (hhash t ht), tagMapSpec_identity])
    have hfun : tagMapSpec (.identity u) = fun t => t := funext (tagMapSpec_identity u)
    rw [hfun, List.map_id'] at h
    exact h

/-- Concrete instantiation of `C8_rewrite_total`: the mapping
`{"A": "B"}` rewrites the tag `"A"` to `"B"` and maps the omitted tag `3`
to itself. -/
theorem C8_rewrite_total_witness :
    rewritePost (.parsed (.obj [("A", .str "B")])) [("tags", .arr [.str "A", .num 3])] =
      .ok [("tags", .arr (List.map (tagMapSpec (.parsed (.obj [("A", .str "B")])))
        [.str "A", .num 3]))]
    ∧ List.map (tagMapSpec (.parsed (.obj [("A", .str "B")]))) [.str "A", .num 3]
        = [.str "B", .num 3] :=
  ⟨(C8_rewrite_total [("tags", .arr [.str "A", .num 3])] [.str "A", .num 3]
      (by decide) (by decide)).1 [("A", .str "B")],
   by decide⟩

/-- Claim C9 (confirmed): a completion response that parses to a non-object
(here a JSON array) is returned by `extract_metadata` as-is, without the
fallback, and the orchestrator's merge `{**post, **metadata}` then raises
an uncaught TypeError: the run aborts after that one call with an error,
so no output batch (and no output file) is produced. -/
theorem C9_nonobject_aborts :
    (∀ (t : String) (v : JValue), extract_metadata t (.ok v) = v)
    ∧ (∀ (fix : String → String) (svc : Nat → LLMOutcome) (post : Dict)
        (rest : List Dict) (t : String) (xs : List JValue),
        getTextStr post = some t → svc 0 = .ok (.arr xs) →
        process_posts fix svc (post :: rest) = (.error .typeError, 1)) := by
  refine ⟨fun t v => rfl, ?_⟩
  intro fix svc post rest t xs htext hsvc
  have hkey := Dict.hasKey_of_getTextStr htext
  have henr : enrichOne fix (svc 0) post = .error .typeError := by
    unfold enrichOne
    simp only [htext, hsvc, extract_metadata]
  have hloop : processLoop fix svc (post :: rest) 0 = (.error .typeError, 1) := by
    simp only [processLoop, hkey, if_true, henr, htext, Option.isSome_some]
  unfold process_posts
  simp only [hloop]

/-- Concrete instantiation of `C9_nonobject_aborts`: a single post whose
extraction response parses to `[]`. -/
theorem C9_nonobject_aborts_witness :
    process_posts (fun s => s) (fun _ => .ok (.arr [])) [[("text", .str "x")]] =
      (.error .typeError, 1) :=
  C9_nonobject_aborts.2 (fun s => s) (fun _ => .ok (.arr [])) [("text", .str "x")] []
    "x" [] (by decide) (by decide)

/-- Claim C10 (confirmed): the input-loading `try`/`except` catches exactly
Unicode decode errors and JSON syntax errors, reporting them and returning
early with no batch (and thus no output file); any other loading failure —
such as the input file not existing — is not caught and propagates to the
caller, while a successful load returns the parsed batch. -/
theorem C10_load_dispatch :
    loadPosts .unicodeDecodeError = .ok none
    ∧ loadPosts .jsonDecodeError = .ok none
    ∧ loadPosts .otherError = .error .other
    ∧ ∀ posts : List Dict, loadPosts (.ok posts) = .ok (some posts) :=
  ⟨rfl, rfl, rfl, fun _ => rfl⟩

end PostPrep
